import Mathlib

/-!
Verification of the Data-Tada ingestion pipeline.

This file gives a shallow embedding of the data-ingestion core of the
repository (src/data/ckan_to_spider_json.py, src/data/sitemap_filter.py,
src/data/run_from_sitemap.py and the item-building tail of
src/data/govscrape/spiders/main_body_spider.py) and proves the spec's
claims about it.

Modelling conventions:
- Python strings are Lean `String`s; character classes (`isalpha`,
  `isalnum`, `lower`, whitespace) are modelled over ASCII, which covers
  every literal the code manipulates.
- A Python value that is absent (`dict.get` returning `None`) is modelled
  as `""` for string fields (the code only ever tests these with
  truthiness, where `None` and `""` behave identically) and as `none` for
  structured fields.
- Network fetching is abstracted into explicit oracle functions passed as
  arguments (`Nat → Except ...` for the paginated fetcher, indexed by the
  offset query parameter; `String → Except ...` for sitemap fetching,
  indexed by URL); an `Except.error` models a raised exception.
- Raised Python exceptions are modelled with `Except`.
-/

namespace DataTada

/-- Python exception classes raised by the embedded code.
`valueError` is the ProtocolError of the spec (the code raises
`ValueError`). -/
inductive PyErr where
  | valueError (msg : String)
  | typeError
  | keyError
  | attributeError
deriving Repr, DecidableEq

/-! ### String helpers (ckan_to_spider_json.clean, str.strip, substring test) -/

/-- Python `str.lower()` (ASCII model), as a structural function. -/
def lowerStr (s : String) : String :=
  String.mk (s.data.map Char.toLower)

/-- The tokens of Python `str.split()`: maximal runs of non-whitespace
characters, accumulated in `cur` (reversed). -/
def wsTokensAux (cur : List Char) : List Char → List String
  | [] => if cur.isEmpty then [] else [String.mk cur.reverse]
  | c :: cs =>
    if c.isWhitespace then
      if cur.isEmpty then wsTokensAux [] cs
      else String.mk cur.reverse :: wsTokensAux [] cs
    else wsTokensAux (c :: cur) cs

/-- Embeds `clean`: `" ".join(str(s).split()).strip()` — split on whitespace
runs, drop empty pieces, re-join with single spaces (the final `strip` is a
no-op on that result). -/
def clean (s : String) : String :=
  " ".intercalate (wsTokensAux [] s.data)

/-- Embeds Python `str.strip()` (whitespace from both ends). -/
def pyStrip (s : String) : String :=
  String.mk
    (List.reverse
      (List.dropWhile Char.isWhitespace
        (List.reverse (List.dropWhile Char.isWhitespace s.data))))

/-- Embeds the Python substring test `needle in hay`. -/
def strIn (needle hay : String) : Bool :=
  (List.range (hay.data.length + 1)).any fun i =>
    needle.data.isPrefixOf (hay.data.drop i)

/-! ### URL path extraction (urllib.parse.urlsplit / urlparse, path component)

`urlsplit` strips, in effect: the fragment (after the first `#`), a valid
scheme prefix (`letter (letter|digit|+|-|.)* :`), a `//netloc` part
(up to the next `/`, `?` or `#`), and the query (after the first `?`);
what remains is the path. -/

/-- Splits a character list at the first occurrence of `c`; the second
component is `none` when `c` does not occur. -/
def splitAtFirst (c : Char) : List Char → List Char × Option (List Char)
  | [] => ([], none)
  | x :: xs =>
    if x = c then ([], some xs)
    else
      let r := splitAtFirst c xs
      (x :: r.1, r.2)

/-- Characters allowed in a URL scheme after the leading letter. -/
def isSchemeChar (c : Char) : Bool :=
  c.isAlphanum || c = '+' || c = '-' || c = '.'

/-- Drops a leading `scheme:` when the text before the first `:` is a
non-empty valid scheme (leading letter, then scheme characters). -/
def dropScheme (l : List Char) : List Char :=
  match splitAtFirst ':' l with
  | (_, none) => l
  | (pre, some rest) =>
    match pre with
    | [] => l
    | c :: cs => if c.isAlpha && cs.all isSchemeChar then rest else l

/-- Drops a leading `//netloc`, where the netloc extends to the next
`/`, `?` or `#`. -/
def dropNetloc (l : List Char) : List Char :=
  match l with
  | '/' :: '/' :: rest =>
    List.dropWhile (fun c => c ≠ '/' && c ≠ '?' && c ≠ '#') rest
  | _ => l

/-- Embeds the path component of `urllib.parse.urlsplit(u)` (equally of
`urlparse`, whose extra params split does not affect the leading path). -/
def urlPath (u : String) : String :=
  String.mk
    ((splitAtFirst '?'
      (dropNetloc (dropScheme (splitAtFirst '#' u.data).1))).1)

/-! ### ckan_to_spider_json.ext_from_url -/

/-- The segment after the last `.` of a character list; `none` when no `.`
occurs (embeds `path.rsplit(".", 1)[-1]` guarded by `"." in path`). -/
def afterLastDot : List Char → Option (List Char)
  | [] => none
  | c :: cs =>
    match afterLastDot cs with
    | some r => some r
    | none => if c = '.' then some cs else none

/-- Embeds `ext_from_url`: lower-cased URL path; the part after the last
dot is the extension when it is 1–5 alphanumeric characters. -/
def ext_from_url (u : String) : Option String :=
  let path := lowerStr (urlPath u)
  match afterLastDot path.data with
  | none => none
  | some extChars =>
    let ext := String.mk extChars
    if 1 ≤ ext.length ∧ ext.length ≤ 5 ∧ extChars.all Char.isAlphanum then
      some ext
    else none

/-! ### Raw catalogue package (RawCataloguePackage) -/

/-- One element of a package's `resources` list; `""` models an absent or
`None` field. -/
structure Resource where
  format : String := ""
  url : String := ""
  download_url : String := ""
  last_modified : String := ""
  created : String := ""
  metadata_modified : String := ""
deriving Repr, DecidableEq

/-- A package's `organization` sub-object. -/
structure Organization where
  title : String := ""
  name : String := ""
deriving Repr, DecidableEq

/-- One element of a package's `groups` list. -/
structure Group where
  title : String := ""
  display_name : String := ""
  name : String := ""
deriving Repr, DecidableEq

/-- A raw CKAN package, with exactly the fields the converter reads.
`spatial` is `some s` when the raw value is the string `s` (the code
checks `isinstance(spatial, str)`); `harvest_href` collapses
`original_harvest_source["href"]`, `""` when absent or falsy. -/
structure Pkg where
  title : String := ""
  name : String := ""
  id : String := ""
  notes : String := ""
  description : String := ""
  author : String := ""
  maintainer : String := ""
  organization : Option Organization := none
  groups : List Group := []
  temporal_coverage_from : String := ""
  resources : List Resource := []
  license_title : String := ""
  license_url : String := ""
  spatial_coverage : String := ""
  spatial : Option String := none
  harvest_href : String := ""
deriving Repr, DecidableEq

/-! ### ckan_to_spider_json.collect_data_types -/

/-- Insertion into the list modelling a Python `set` (no-op on a member). -/
def insertSet (x : String) (s : List String) : List String :=
  if x ∈ s then s else s ++ [x]

/-- First-occurrence deduplication, modelling a set built from a list. -/
def dedupSet (l : List String) : List String :=
  l.foldl (fun acc x => insertSet x acc) []

/-- The `alias` dictionary lookup `alias.get(t, t)` of
`collect_data_types`; every entry except `htm` maps to itself. -/
def aliasNorm (t : String) : String :=
  match t with
  | "xls" => "xls"
  | "xlsx" => "xlsx"
  | "csv" => "csv"
  | "json" => "json"
  | "xml" => "xml"
  | "zip" => "zip"
  | "pdf" => "pdf"
  | "doc" => "doc"
  | "docx" => "docx"
  | "ppt" => "ppt"
  | "pptx" => "pptx"
  | "geojson" => "geojson"
  | "tsv" => "tsv"
  | "htm" => "html"
  | t => t

/-- One iteration of the `for r in resources` loop of
`collect_data_types`: add the cleaned lower-cased `format` when non-empty,
then the extension parsed from `url or download_url` when present. -/
def resourceTypeInsert (acc : List String) (r : Resource) : List String :=
  let fmt := lowerStr (clean r.format)
  let acc := if fmt ≠ "" then insertSet fmt acc else acc
  let u := if r.url ≠ "" then r.url else r.download_url
  if u ≠ "" then
    match ext_from_url u with
    | some e => insertSet e acc
    | none => acc
  else acc

/-- Code-point lexicographic comparison of character lists (the order
Python `sorted` uses on strings). -/
def lexLe : List Char → List Char → Bool
  | [], _ => true
  | _ :: _, [] => false
  | a :: as, b :: bs =>
    if a = b then lexLe as bs
    else decide (a.toNat < b.toNat)

/-- Code-point lexicographic order on strings. -/
def strLeB (s t : String) : Bool :=
  lexLe s.data t.data

/-- Sorting used to model Python `sorted` on a set of strings. -/
def sortStrings (l : List String) : List String :=
  List.insertionSort (fun a b => strLeB a b = true) l

/-- Embeds `collect_data_types`: the set of declared formats and URL
extensions, lower-cased, alias-normalized, sorted and comma-joined. -/
def collect_data_types (resources : List Resource) : String :=
  let types := resources.foldl resourceTypeInsert []
  let norm := dedupSet ((types.filter fun t => t ≠ "").map lowerStr)
  let out := dedupSet (norm.map aliasNorm)
  ", ".intercalate (sortStrings out)

/-! ### ckan_to_spider_json.YEAR_RE and guess_year -/

/-- Python regex word character (`\w`, ASCII part). -/
def isWordChar (c : Char) : Bool :=
  c.isAlphanum || c = '_'

/-- First two characters of a year: `19`, `20` or `21`. -/
def yearStart (c1 c2 : Char) : Bool :=
  (c1 = '1' && c2 = '9') || (c1 = '2' && (c2 = '0' || c2 = '1'))

/-- A word boundary holds next to `none` (text edge) or a non-word
character. -/
def boundaryOk : Option Char → Bool
  | some p => !(isWordChar p)
  | none => true

/-- Leftmost match of `YEAR_RE` = `\b(19|20|21)\d{2}\b`, scanning with the
previous character for the left boundary. -/
def findYearAux (prev : Option Char) : List Char → Option String
  | c1 :: c2 :: c3 :: c4 :: rest =>
    if yearStart c1 c2 && c3.isDigit && c4.isDigit &&
        boundaryOk prev && boundaryOk rest.head? then
      some (String.mk [c1, c2, c3, c4])
    else findYearAux (some c1) (c2 :: c3 :: c4 :: rest)
  | _ => none

/-- Embeds `YEAR_RE.search(s)`, returning the matched text. -/
def findYear (s : String) : Option String :=
  findYearAux none s.data

/-- Numeric value of a matched year string (`int(m.group(0))`, always
applied to a four-digit match). -/
def yearVal (s : String) : Nat :=
  s.data.foldl (fun acc c => acc * 10 + (c.toNat - 48)) 0

/-- The `years` list of `guess_year`: for each resource, in key order
`last_modified`, `created`, `metadata_modified`, the value of the first
year pattern found in a truthy field. -/
def resourceYears (resources : List Resource) : List Nat :=
  resources.flatMap fun r =>
    [r.last_modified, r.created, r.metadata_modified].flatMap fun v =>
      if v ≠ "" then
        match findYear v with
        | some y => [yearVal y]
        | none => []
      else []

/-- Embeds `guess_year`: year pattern in the cleaned title, else in a
truthy `temporal_coverage_from`, else the maximum year over the resource
timestamps, else `""`. -/
def guess_year (title temporal_from : String) (resources : List Resource) :
    String :=
  match findYear (clean title) with
  | some y => y
  | none =>
    match (if temporal_from ≠ "" then findYear temporal_from else none) with
    | some y => y
    | none =>
      match (resourceYears resources).max? with
      | some m => toString m
      | none => ""

/-! ### Remaining field rules of ckan_to_spider_json -/

/-- The organization part of `guess_owner`:
`(pkg.get("organization") or {}).get("title") or (...).get("name")`. -/
def orgField (o : Option Organization) : String :=
  match o with
  | some org => if org.title ≠ "" then org.title else org.name
  | none => ""

/-- Embeds `guess_owner`. -/
def guess_owner (pkg : Pkg) : String :=
  let org := orgField pkg.organization
  if org ≠ "" then clean org
  else if pkg.author ≠ "" then clean pkg.author
  else if pkg.maintainer ≠ "" then clean pkg.maintainer
  else ""

/-- The per-group title of `guess_topic`:
`clean(g.get("title") or g.get("display_name") or g.get("name"))`. -/
def groupTitle (g : Group) : String :=
  clean
    (if g.title ≠ "" then g.title
     else if g.display_name ≠ "" then g.display_name
     else g.name)

/-- Case-insensitive order-preserving deduplication of `guess_topic`
(`seen` set of lower-cased names, `out` keeps first-seen casing). -/
def dedupCaseInsensitive (names : List String) : List String :=
  (names.foldl
    (fun acc n =>
      if lowerStr n ∈ acc.1 then acc
      else (acc.1 ++ [lowerStr n], acc.2 ++ [n]))
    ([], [])).2

/-- Embeds `guess_topic`. -/
def guess_topic (pkg : Pkg) : String :=
  let names := (pkg.groups.map groupTitle).filter fun t => t ≠ ""
  ", ".intercalate (dedupCaseInsensitive names)

/-- Embeds `guess_coverage`. -/
def guess_coverage (pkg : Pkg) : String :=
  let cov := clean pkg.spatial_coverage
  if cov ≠ "" then cov
  else
    match pkg.spatial with
    | some s =>
      if s ≠ "" then
        let s' := clean s
        if s'.length ≤ 120 then s' else ""
      else ""
    | none => ""

/-- Embeds `guess_description`. -/
def guess_description (pkg : Pkg) : String :=
  clean (if pkg.notes ≠ "" then pkg.notes else pkg.description)

/-- Embeds `guess_license`. -/
def guess_license (pkg : Pkg) : String :=
  clean (if pkg.license_title ≠ "" then pkg.license_title else pkg.license_url)

/-- Embeds `guess_source_url`. -/
def guess_source_url (pkg : Pkg) : String :=
  if pkg.harvest_href ≠ "" then clean pkg.harvest_href
  else
    let name := if pkg.name ≠ "" then pkg.name else pkg.id
    if name ≠ "" then "https://data.gov.au/data/dataset/" ++ name else ""

/-- Embeds `sample_preview_from_notes`: `clean(notes)[:280]`. -/
def sample_preview_from_notes (notes : String) : String :=
  (clean notes).take 280

/-! ### ckan_to_spider_json.transform_package and the id-assigning loop -/

/-- The canonical DatasetRecord. `id` is `none` when the Python code would
store `""` (a `row_id` of `None`). -/
structure Record where
  id : Option Nat
  title : String
  description : String
  owner : String
  topic : String
  year : String
  license : String
  coverage : String
  sample_preview : String
  source_url : String
  data_types : String
deriving Repr, DecidableEq

/-- The record literal built at the end of `transform_package` (every field
is already `""` when empty, so the `or ""` guards are no-ops). -/
def candidateRecord (pkg : Pkg) (row_id : Option Nat) : Record :=
  let title := clean (if pkg.title ≠ "" then pkg.title else pkg.name)
  { id := row_id
    title := title
    description := guess_description pkg
    owner := guess_owner pkg
    topic := guess_topic pkg
    year := guess_year title pkg.temporal_coverage_from pkg.resources
    license := guess_license pkg
    coverage := guess_coverage pkg
    sample_preview := sample_preview_from_notes pkg.notes
    source_url := guess_source_url pkg
    data_types := collect_data_types pkg.resources }

/-- Embeds `transform_package`: `None` when `drop_if_empty_types` is set
and the derived `data_types` is empty, else the candidate record. -/
def transform_package (pkg : Pkg) (drop_if_empty_types : Bool)
    (row_id : Option Nat) : Option Record :=
  if drop_if_empty_types && collect_data_types pkg.resources == "" then none
  else some (candidateRecord pkg row_id)

/-- Embeds the record loop of `main` (ckan_to_spider_json.py lines
229–235) and equally the inner package loop of `_ckan_collect_all`:
append a kept row and increment the id counter, skip a dropped one. -/
def normalizeLoop (pkgs : List Pkg) (current_id : Nat) : List Record × Nat :=
  match pkgs with
  | [] => ([], current_id)
  | p :: ps =>
    match transform_package p true (some current_id) with
    | none => normalizeLoop ps current_id
    | some row =>
      let rest := normalizeLoop ps (current_id + 1)
      (row :: rest.1, rest.2)

/-! ### run_from_sitemap._ckan_collect_all

A source URL's fetch-and-validate phase (`fetch_all_pages` /
`load_json_any` / `ckan_results_from_page`, all of which run before any
package of that URL is transformed) is abstracted into one
`Except String (List Pkg)` outcome per URL; `.error` models the caught
and logged exception. -/

/-- Embeds `_ckan_collect_all`: sequential over source URLs, a failing URL
is skipped, a succeeding one runs the id-assigning package loop. -/
def ckanCollectAll (fetches : List (Except String (List Pkg)))
    (start_id : Nat) : List Record × Nat :=
  match fetches with
  | [] => ([], start_id)
  | .error _ :: rest => ckanCollectAll rest start_id
  | .ok pkgs :: rest =>
    let r := normalizeLoop pkgs start_id
    let r2 := ckanCollectAll rest r.2
    (r.1 ++ r2.1, r2.2)

/-! ### main_body_spider.MainBodySpider.parse (item-building tail)

The HTML extraction helpers (`_extract_title` etc., which run CSS
selectors over the fetched page) are abstracted into a `PageExtract`
holding their string results and the set of extension tokens collected by
`_collect_data_types_from_links`; the embedded part is the item literal,
the drop test and the counter increment of `parse` (lines 279–299), which
the single-threaded crawler applies to responses in sequence. -/

/-- The extraction results for one crawled page. -/
structure PageExtract where
  title : String := ""
  description : String := ""
  owner : String := ""
  topic : String := ""
  year : String := ""
  license : String := ""
  coverage : String := ""
  sample_preview : String := ""
  source_url : String := ""
  data_types_set : List String := []
deriving Repr, DecidableEq

/-- The `data_types` string of a spider item:
`", ".join(sorted(data_types_set)) if data_types_set else ""`. -/
def spiderDataTypes (s : List String) : String :=
  if s.isEmpty then "" else ", ".intercalate (sortStrings (dedupSet s))

/-- The item dictionary built in `parse` with the current counter value. -/
def spiderItem (pg : PageExtract) (n : Nat) : Record :=
  { id := some n
    title := pg.title
    description := pg.description
    owner := pg.owner
    topic := pg.topic
    year := pg.year
    license := pg.license
    coverage := pg.coverage
    sample_preview := pg.sample_preview
    source_url := pg.source_url
    data_types := spiderDataTypes pg.data_types_set }

/-- Embeds the tail of `parse`: drop the item when `data_types` is empty
(no yield, counter unchanged), else yield it and increment the counter. -/
def spiderParse (pg : PageExtract) (counter : Nat) : Option Record × Nat :=
  let item := spiderItem pg counter
  if item.data_types == "" then (none, counter)
  else (some item, counter + 1)

/-- The crawl stage: `parse` applied to each fetched page in sequence,
threading the spider's `_id_counter`. -/
def spiderRun (pages : List PageExtract) (counter : Nat) :
    List Record × Nat :=
  match pages with
  | [] => ([], counter)
  | pg :: rest =>
    match spiderParse pg counter with
    | (none, c) => spiderRun rest c
    | (some it, c) =>
      let r := spiderRun rest c
      (it :: r.1, r.2)

/-- Embeds the orchestration of `run_pipeline`: the CKAN stage starts at
id 1 and returns `next_id`, which seeds the spider
(`process.crawl(MainBodySpider, ..., start_id=next_id)`); the final output
is `ckan_rows + spider_rows`. -/
def run_pipeline (fetches : List (Except String (List Pkg)))
    (pages : List PageExtract) : List Record :=
  let ckan := ckanCollectAll fetches 1
  let spider := spiderRun pages ckan.2
  ckan.1 ++ spider.1

/-! ### ckan_to_spider_json.fetch_all_pages

The network and URL manipulation are abstracted into a page oracle
indexed by the value of the `start` offset parameter
(`update_query(base_url, start=start)` followed by `load_json_any` and
`ckan_results_from_page`): `oracle i` is the validated page at offset
`i` — its results list and its reported `count` — or the raised
exception. `rows` and `start` are the page size and initial offset parsed
from the query string of the base URL. -/

/-- The `while got < total` loop of `fetch_all_pages`: advance the offset
by the page size, fetch and validate the next page, stop on an empty page,
otherwise append its results and continue. The Python `got` counter always
equals `len(results)`, so the loop carries only the accumulator and reads
its length. -/
def fetchLoop (oracle : Nat → Except PyErr (List α × Option Nat))
    (rows total start : Nat) (acc : List α) : Except PyErr (List α) :=
  if _h : acc.length < total then
    match oracle (start + rows) with
    | .error e => .error e
    | .ok page =>
      if page.1.isEmpty then .ok acc
      else fetchLoop oracle rows total (start + rows) (acc ++ page.1)
  else .ok acc
termination_by total - acc.length
decreasing_by
  simp only [List.length_append]
  have hp : 0 < page.1.length := by
    cases hq : page.1 with
    | nil => simp [hq] at *
    | cons a l => simp
  omega

/-- Embeds `fetch_all_pages`: fetch and validate the first page; with no
reported total return it alone, otherwise run the pagination loop seeded
with the first page's results. -/
def fetch_all_pages (oracle : Nat → Except PyErr (List α × Option Nat))
    (rows start : Nat) : Except PyErr (List α) :=
  match oracle start with
  | .error e => .error e
  | .ok first =>
    match first.2 with
    | none => .ok first.1
    | some total => fetchLoop oracle rows total start first.1

/-! ### ckan_to_spider_json.ckan_results_from_page over a JSON model -/

/-- The JSON values a parsed catalogue response can be. -/
inductive JVal where
  | null
  | bool (b : Bool)
  | num (n : Int)
  | str (s : String)
  | arr (elems : List JVal)
  | obj (fields : List (String × JVal))

/-- Dictionary lookup on an object's field list. -/
def lookupField (fields : List (String × JVal)) (k : String) : Option JVal :=
  match fields with
  | [] => none
  | (k', v) :: rest => if k' = k then some v else lookupField rest k

/-- Python truthiness of a JSON value. -/
def truthy (v : JVal) : Bool :=
  match v with
  | .null => false
  | .bool b => b
  | .num n => n != 0
  | .str s => s != ""
  | .arr l => !l.isEmpty
  | .obj l => !l.isEmpty

/-- The Python membership test `key in container`: key lookup on a dict,
element equality on a list, substring test on a string, `TypeError`
otherwise. -/
def pyContains (container : JVal) (key : String) : Except PyErr Bool :=
  match container with
  | .obj fields => .ok (lookupField fields key).isSome
  | .arr elems =>
    .ok (elems.any fun e =>
      match e with
      | .str s => s == key
      | _ => false)
  | .str s => .ok (strIn key s)
  | _ => .error .typeError

/-- The Python subscript `container[key]` with a string key: dict lookup
(`KeyError` when missing), `TypeError` on any non-dict. -/
def getItem (container : JVal) (key : String) : Except PyErr JVal :=
  match container with
  | .obj fields =>
    match lookupField fields key with
    | some v => .ok v
    | none => .error .keyError
  | _ => .error .typeError

/-- The Python method call `container.get(key, default)`:
`AttributeError` on a non-dict. -/
def pyGet (container : JVal) (key : String) : Except PyErr (Option JVal) :=
  match container with
  | .obj fields => .ok (lookupField fields key)
  | _ => .error .attributeError

/-- Embeds `ckan_results_from_page`: the shape test
`not isinstance(data, dict) or "result" not in data or "results" not in
data["result"]` (short-circuit, raising `ValueError`), the
`success=false` test (`ValueError`), then
`return data["result"]["results"], data["result"].get("count", None)`. -/
def ckan_results_from_page (data : JVal) :
    Except PyErr (JVal × Option JVal) :=
  match data with
  | .obj fields =>
    match lookupField fields "result" with
    | none => .error (.valueError "Input is not a CKAN package_search response")
    | some result =>
      match pyContains result "results" with
      | .error e => .error e
      | .ok false =>
        .error (.valueError "Input is not a CKAN package_search response")
      | .ok true =>
        if truthy ((lookupField fields "success").getD (.bool true)) then
          match getItem result "results" with
          | .error e => .error e
          | .ok rv =>
            match pyGet result "count" with
            | .error e => .error e
            | .ok cnt => .ok (rv, cnt)
        else .error (.valueError "CKAN API success=false")
  | _ => .error (.valueError "Input is not a CKAN package_search response")

/-! ### sitemap_filter: URL index collection -/

/-- A parsed sitemap-style XML document: the text contents of its
`url/loc` elements (leaf entries) and of its `sitemap/loc` elements
(child-index references). `none` models an element whose `.text` is
`None`. -/
structure SitemapDoc where
  urlLocs : List (Option String)
  sitemapLocs : List (Option String)
deriving Repr, DecidableEq

/-- The collection loop over `loc` elements: `if loc.text:
append(loc.text.strip())` (a falsy text is skipped). -/
def locTexts (locs : List (Option String)) : List String :=
  locs.filterMap fun t? =>
    match t? with
    | some s => if s = "" then none else some (pyStrip s)
    | none => none

/-- Embeds `collect_urls_from_urlset`: fetch and parse one index, return
its leaf `loc` texts; fetch and parse failures propagate. -/
def collect_urls_from_urlset (world : String → Except String SitemapDoc)
    (url : String) : Except String (List String) :=
  match world url with
  | .error e => .error e
  | .ok root => .ok (locTexts root.urlLocs)

/-- Embeds `collect_urls_from_sitemap`: the root's own leaf entries when
any are present; otherwise one level of child indexes, each child's
failure silently swallowed (`try ... except Exception: pass`). -/
def collect_urls_from_sitemap (world : String → Except String SitemapDoc)
    (url : String) : Except String (List String) :=
  match world url with
  | .error e => .error e
  | .ok root =>
    let urls := locTexts root.urlLocs
    if urls.isEmpty then
      .ok ((locTexts root.sitemapLocs).foldl
        (fun acc child =>
          match collect_urls_from_urlset world child with
          | .ok more => acc ++ more
          | .error _ => acc)
        [])
    else .ok urls

/-! ### sitemap_filter: keyword filtering -/

/-- The built-in `DEFAULT_KEYWORDS` list. -/
def DEFAULT_KEYWORDS : List String :=
  ["api", "apis", "graphql", "rest", "odata",
   "data", "dataset", "datasets", "resources", "records", "entries",
   "feed", "stream", "datastore",
   "stats", "statistics", "report", "reports", "analytics", "metrics",
   "opendata", "catalog", "downloads", "ckan",
   "json", "xml", "csv", "rdf", "geojson", "xlsx"]

/-- Embeds `filter_by_keywords`: keep the URLs whose lower-cased path
contains some lower-cased keyword (the `urlsplit` call cannot raise for a
string argument, so the `except` branch is dead). -/
def filter_by_keywords (urls keywords : List String) : List String :=
  let kws := keywords.map lowerStr
  urls.foldl
    (fun out u =>
      if kws.any (fun k => strIn k (lowerStr (urlPath u))) then out ++ [u]
      else out)
    []

/-- Embeds the keyword defaulting of the callers (`keywords or
DEFAULT_KEYWORDS` in `run_pipeline`; the same default in
`sitemap_filter.main`): an absent or empty override falls back to the
built-in list. -/
def keywordsOrDefault (keywords : Option (List String)) : List String :=
  match keywords with
  | some ks => if ks.isEmpty then DEFAULT_KEYWORDS else ks
  | none => DEFAULT_KEYWORDS

/-! ## Theorems -/

theorem transform_package_drop (p : Pkg) (n : Nat)
    (h : collect_data_types p.resources = "") :
    transform_package p true (some n) = none := by
  simp [transform_package, h]

theorem transform_package_keep (p : Pkg) (n : Nat)
    (h : collect_data_types p.resources ≠ "") :
    transform_package p true (some n) = some (candidateRecord p (some n)) := by
  simp [transform_package, h]

theorem normalizeLoop_eq (pkgs : List Pkg) (s : Nat) :
    normalizeLoop pkgs s =
      (((pkgs.filter fun p => collect_data_types p.resources != "").zip
          (List.range' s
            (pkgs.filter fun p =>
              collect_data_types p.resources != "").length)).map
          fun q => candidateRecord q.1 (some q.2),
        s + (pkgs.filter fun p =>
          collect_data_types p.resources != "").length) := by
  induction pkgs generalizing s with
  | nil => simp [normalizeLoop]
  | cons p ps ih =>
    by_cases h : collect_data_types p.resources = ""
    · have hdrop : (collect_data_types p.resources != "") = false := by
        simp [h]
      simp only [normalizeLoop, transform_package_drop p s h,
        List.filter_cons, hdrop, Bool.false_eq_true, if_neg, ite_false]
      exact ih s
    · have hkeep : (collect_data_types p.resources != "") = true := by
        simp [h]
      simp only [normalizeLoop, transform_package_keep p s h]
      rw [ih (s + 1)]
      simp only [List.filter_cons, hkeep, ite_true, List.length_cons,
        List.range'_succ, List.zip_cons_cons, List.map_cons]
      exact Prod.ext rfl (by omega)

theorem normalizeLoop_ids (pkgs : List Pkg) (s : Nat) :
    (normalizeLoop pkgs s).1 =
      ((pkgs.filter fun p => collect_data_types p.resources != "").zip
        (List.range' s (pkgs.filter fun p =>
          collect_data_types p.resources != "").length)).map
        (fun q => candidateRecord q.1 (some q.2)) ∧
    (normalizeLoop pkgs s).2 =
      s + (pkgs.filter fun p =>
        collect_data_types p.resources != "").length ∧
    (normalizeLoop pkgs s).1.length =
      (pkgs.filter fun p => collect_data_types p.resources != "").length ∧
    (normalizeLoop pkgs s).1.map Record.id =
      (List.range' s (pkgs.filter fun p =>
        collect_data_types p.resources != "").length).map some := by
  rw [normalizeLoop_eq pkgs s]
  refine ⟨rfl, rfl, ?_, ?_⟩
  · simp [List.length_zip]
  · rw [List.map_map]
    have hz : ((pkgs.filter fun p =>
        collect_data_types p.resources != "").zip
          (List.range' s (pkgs.filter fun p =>
            collect_data_types p.resources != "").length)).map Prod.snd =
        List.range' s (pkgs.filter fun p =>
          collect_data_types p.resources != "").length :=
      List.map_snd_zip _ _ (by simp)
    calc ((pkgs.filter fun p => collect_data_types p.resources != "").zip
          (List.range' s (pkgs.filter fun p =>
            collect_data_types p.resources != "").length)).map
          (Record.id ∘ fun q => candidateRecord q.1 (some q.2))
        = ((pkgs.filter fun p => collect_data_types p.resources != "").zip
          (List.range' s (pkgs.filter fun p =>
            collect_data_types p.resources != "").length)).map
          (some ∘ Prod.snd) := by
          apply List.map_congr_left
          intro q _
          rfl
      _ = _ := by rw [← List.map_map, hz]

/-- C1: for every package list and starting identifier `s`, the
normalization loop keeps exactly the packages whose derived `data_types`
is non-empty (drop override unset): the kept records are the filtered
packages in input order paired with the consecutive identifiers
`s, s+1, ...`, a dropped package yields no record, consumes no
identifier, and the next unused identifier is `s + k` for `k` kept
records. -/
theorem c1_drop_and_density (pkgs : List Pkg) (s : Nat) :
    (normalizeLoop pkgs s).1 =
      ((pkgs.filter fun p => collect_data_types p.resources != "").zip
        (List.range' s (pkgs.filter fun p =>
          collect_data_types p.resources != "").length)).map
        (fun q => candidateRecord q.1 (some q.2)) ∧
    (normalizeLoop pkgs s).2 =
      s + (pkgs.filter fun p =>
        collect_data_types p.resources != "").length ∧
    (normalizeLoop pkgs s).1.length =
      (pkgs.filter fun p => collect_data_types p.resources != "").length ∧
    (normalizeLoop pkgs s).1.map Record.id =
      (List.range' s (pkgs.filter fun p =>
        collect_data_types p.resources != "").length).map some :=
  normalizeLoop_ids pkgs s

theorem ckanCollectAll_ids (fetches : List (Except String (List Pkg)))
    (s : Nat) :
    (ckanCollectAll fetches s).2 = s + (ckanCollectAll fetches s).1.length ∧
    (ckanCollectAll fetches s).1.map Record.id =
      (List.range' s (ckanCollectAll fetches s).1.length).map some := by
  induction fetches generalizing s with
  | nil => simp [ckanCollectAll]
  | cons f rest ih =>
    match f with
    | .error e => simpa [ckanCollectAll] using ih s
    | .ok pkgs =>
      obtain ⟨_, h2, h3, h4⟩ := normalizeLoop_ids pkgs s
      obtain ⟨ih1, ih2⟩ := ih (normalizeLoop pkgs s).2
      simp only [ckanCollectAll, List.length_append, List.map_append]
      constructor
      · omega
      · rw [h4, ih2, h2]
        rw [← List.map_append]
        congr 1
        have happ := List.range'_append s
          (List.filter (fun p => collect_data_types p.resources != "")
            pkgs).length
          (ckanCollectAll rest
            (s + (List.filter (fun p =>
              collect_data_types p.resources != "") pkgs).length)).1.length 1
        simp only [Nat.one_mul] at happ
        rw [happ, Nat.add_comm, h3]

theorem spiderRun_ids (pages : List PageExtract) (s : Nat) :
    (spiderRun pages s).2 = s + (spiderRun pages s).1.length ∧
    (spiderRun pages s).1.map Record.id =
      (List.range' s (spiderRun pages s).1.length).map some := by
  induction pages generalizing s with
  | nil => simp [spiderRun]
  | cons pg rest ih =>
    by_cases h : spiderDataTypes pg.data_types_set = ""
    · have hp : spiderParse pg s = (none, s) := by
        simp [spiderParse, spiderItem, h]
      simpa [spiderRun, hp] using ih s
    · have hp : spiderParse pg s = (some (spiderItem pg s), s + 1) := by
        simp [spiderParse, spiderItem, h]
      obtain ⟨ih1, ih2⟩ := ih (s + 1)
      simp only [spiderRun, hp, List.length_cons, List.map_cons]
      constructor
      · omega
      · rw [List.range'_succ, List.map_cons, ih2]
        rfl

theorem filterMap_of_map_some {l : List Record} {l₀ : List Nat}
    (h : l.map Record.id = l₀.map some) : l.filterMap Record.id = l₀ := by
  induction l generalizing l₀ with
  | nil =>
    cases l₀ with
    | nil => simp
    | cons b t₀ => simp at h
  | cons a t ih =>
    cases l₀ with
    | nil => simp at h
    | cons b t₀ =>
      simp only [List.map_cons, List.cons.injEq] at h
      obtain ⟨h1, h2⟩ := h
      simp [List.filterMap_cons, h1, ih h2]

/-- C2: the crawl stage's counter is seeded with exactly the next unused
identifier returned by the catalogue stage, the merged output is the
catalogue records followed by the crawl records in their keep-orders, and
the ids of the final output are `1, 2, ...` in order — strictly
increasing, without duplicates. -/
theorem c2_cross_source_id_continuity
    (fetches : List (Except String (List Pkg)))
    (pages : List PageExtract) :
    (ckanCollectAll fetches 1).2 =
      1 + (ckanCollectAll fetches 1).1.length ∧
    (spiderRun pages (ckanCollectAll fetches 1).2).1.map Record.id =
      (List.range' (ckanCollectAll fetches 1).2
        (spiderRun pages (ckanCollectAll fetches 1).2).1.length).map some ∧
    run_pipeline fetches pages =
      (ckanCollectAll fetches 1).1 ++
        (spiderRun pages (ckanCollectAll fetches 1).2).1 ∧
    (run_pipeline fetches pages).map Record.id =
      (List.range' 1 (run_pipeline fetches pages).length).map some ∧
    List.Pairwise (fun a b => a < b)
      ((run_pipeline fetches pages).filterMap Record.id) ∧
    ((run_pipeline fetches pages).filterMap Record.id).Nodup := by
  obtain ⟨hc1, hc2⟩ := ckanCollectAll_ids fetches 1
  obtain ⟨hs1, hs2⟩ := spiderRun_ids pages (ckanCollectAll fetches 1).2
  have hrp : run_pipeline fetches pages =
      (ckanCollectAll fetches 1).1 ++
        (spiderRun pages (ckanCollectAll fetches 1).2).1 := rfl
  have hmap : (run_pipeline fetches pages).map Record.id =
      (List.range' 1 (run_pipeline fetches pages).length).map some := by
    rw [hrp, List.map_append, hc2, hs2, List.length_append,
      ← List.map_append]
    congr 1
    have happ := List.range'_append 1
      (ckanCollectAll fetches 1).1.length
      (spiderRun pages (ckanCollectAll fetches 1).2).1.length 1
    simp only [Nat.one_mul] at happ
    rw [← hc1] at happ
    rw [happ, Nat.add_comm]
  have hfm : (run_pipeline fetches pages).filterMap Record.id =
      List.range' 1 (run_pipeline fetches pages).length :=
    filterMap_of_map_some hmap
  have hpw : List.Pairwise (fun a b => a < b)
      ((run_pipeline fetches pages).filterMap Record.id) := by
    rw [hfm]
    exact List.pairwise_lt_range' 1 (run_pipeline fetches pages).length
  exact ⟨hc1, hs2, hrp, hmap, hpw,
    hpw.imp fun hab => Nat.ne_of_lt hab⟩

/-- C5: a source URL whose fetch or validation fails contributes nothing
to the catalogue stage: with the failing URL inserted anywhere in the
sequential URL list, the accumulated records and identifier counter are
exactly those of the run without it — the remaining URLs are still
processed. -/
theorem c5_failing_source_url_isolated
    (us vs : List (Except String (List Pkg))) (e : String) (n : Nat) :
    ckanCollectAll (us ++ .error e :: vs) n = ckanCollectAll (us ++ vs) n := by
  induction us generalizing n with
  | nil => simp [ckanCollectAll]
  | cons u us ih =>
    cases u with
    | error e' =>
      simpa only [List.cons_append, ckanCollectAll] using ih n
    | ok pkgs =>
      simp only [List.cons_append, ckanCollectAll, List.append_eq]
      rw [ih]

/-! ### C3: characterization of the pagination loop

`specPage` and `specPagesUpTo` are spec-side descriptions (from §4.2 and
§8 of the spec) used to state what the fetcher returns: page `k` lives at
offset `start + rows * k`, and the result is a concatenation of an
initial run of pages. -/

/-- An oracle in which every fetch succeeds with `pf i`. -/
def okOracle (pf : Nat → List α × Option Nat) :
    Nat → Except PyErr (List α × Option Nat) :=
  fun i => .ok (pf i)

/-- Spec-side: the results of the page at offset `start + rows * k`. -/
def specPage (pf : Nat → List α × Option Nat) (rows start k : Nat) :
    List α :=
  (pf (start + rows * k)).1

/-- Spec-side: the concatenation, in fetch order, of pages `0..n`. -/
def specPagesUpTo (pf : Nat → List α × Option Nat) (rows start n : Nat) :
    List α :=
  (List.range (n + 1)).flatMap (specPage pf rows start)

theorem specPagesUpTo_zero (pf : Nat → List α × Option Nat)
    (rows start : Nat) :
    specPagesUpTo pf rows start 0 = (pf start).1 := by
  have h1 : List.range 1 = [0] := rfl
  simp [specPagesUpTo, h1, specPage]

theorem specPagesUpTo_succ (pf : Nat → List α × Option Nat)
    (rows start k : Nat) :
    specPagesUpTo pf rows start (k + 1) =
      specPagesUpTo pf rows start k ++ specPage pf rows start (k + 1) := by
  simp only [specPagesUpTo]
  rw [List.range_succ, List.flatMap_append]
  simp

theorem fetchLoop_ok_spec (pf : Nat → List α × Option Nat)
    (rows total start : Nat) (fuel k : Nat)
    (hfuel : total - (specPagesUpTo pf rows start k).length ≤ fuel) :
    ∃ n, k ≤ n ∧
      fetchLoop (okOracle pf) rows total (start + rows * k)
        (specPagesUpTo pf rows start k) =
        .ok (specPagesUpTo pf rows start n) ∧
      (∀ m, k ≤ m → m < n →
        (specPagesUpTo pf rows start m).length < total ∧
        specPage pf rows start (m + 1) ≠ []) ∧
      (total ≤ (specPagesUpTo pf rows start n).length ∨
        ((specPagesUpTo pf rows start n).length < total ∧
          specPage pf rows start (n + 1) = [])) := by
  induction fuel generalizing k with
  | zero =>
    refine ⟨k, Nat.le_refl k, ?_, ?_, ?_⟩
    · rw [fetchLoop]
      have : ¬ (specPagesUpTo pf rows start k).length < total := by omega
      simp [this]
    · intro m hm1 hm2
      omega
    · left
      omega
  | succ fuel ih =>
    by_cases hlt : (specPagesUpTo pf rows start k).length < total
    · have hstep : start + rows * k + rows = start + rows * (k + 1) := by
        rw [Nat.mul_succ]
        omega
      cases hemp : specPage pf rows start (k + 1) with
      | nil =>
        refine ⟨k, Nat.le_refl k, ?_, ?_, ?_⟩
        · rw [fetchLoop]
          simp only [hlt, dite_true, okOracle, hstep]
          have : (pf (start + rows * (k + 1))).1.isEmpty = true := by
            have := hemp
            simp only [specPage] at this
            simp [this]
          simp [this]
        · intro m hm1 hm2
          omega
        · right
          exact ⟨hlt, hemp⟩
      | cons a l =>
        have hne : specPage pf rows start (k + 1) ≠ [] := by
          rw [hemp]
          simp
        have hfuel' :
            total - (specPagesUpTo pf rows start (k + 1)).length ≤ fuel := by
          rw [specPagesUpTo_succ, List.length_append]
          have : 0 < (specPage pf rows start (k + 1)).length := by
            rw [hemp]
            simp
          omega
        obtain ⟨n, hn1, hn2, hn3, hn4⟩ := ih (k + 1) hfuel'
        refine ⟨n, by omega, ?_, ?_, hn4⟩
        · rw [fetchLoop]
          simp only [hlt, dite_true, okOracle, hstep]
          have hne' : (pf (start + rows * (k + 1))).1.isEmpty = false := by
            have := hemp
            simp only [specPage] at this
            simp [this]
          simp only [hne', Bool.false_eq_true, if_false, ite_false]
          rw [← specPage, ← specPagesUpTo_succ]
          exact hn2
        · intro m hm1 hm2
          rcases Nat.eq_or_lt_of_le hm1 with hm | hm
          · exact ⟨hm ▸ hlt, hm ▸ hne⟩
          · exact hn3 m hm hm2
    · refine ⟨k, Nat.le_refl k, ?_, ?_, ?_⟩
      · rw [fetchLoop]
        simp [hlt]
      · intro m hm1 hm2
        omega
      · left
        omega

/-- C3: with an oracle in which every page at offset `start + rows * k`
validates successfully, the fetcher returns only the first page when that
page reports no total; otherwise it returns the concatenation, in fetch
order, of an initial run of pages at offsets advancing by the page size,
where every page before the last was fetched while the accumulated count
was still below the reported total and was non-empty, and fetching
stopped exactly because the accumulated count reached the total or the
next fetched page was empty — in either case without error. -/
theorem c3_pagination_protocol {α : Type} (pf : Nat → List α × Option Nat)
    (rows start : Nat) :
    ((pf start).2 = none →
      fetch_all_pages (okOracle pf) rows start = .ok (pf start).1) ∧
    (∀ total, (pf start).2 = some total →
      ∃ n, fetch_all_pages (okOracle pf) rows start =
          .ok (specPagesUpTo pf rows start n) ∧
        (∀ m, m < n →
          (specPagesUpTo pf rows start m).length < total ∧
          specPage pf rows start (m + 1) ≠ []) ∧
        (total ≤ (specPagesUpTo pf rows start n).length ∨
          ((specPagesUpTo pf rows start n).length < total ∧
            specPage pf rows start (n + 1) = []))) := by
  constructor
  · intro h
    simp [fetch_all_pages, okOracle, h]
  · intro total h
    have hbase : specPagesUpTo pf rows start 0 = (pf start).1 :=
      specPagesUpTo_zero pf rows start
    obtain ⟨n, _, hloop, hmid, hstop⟩ :=
      fetchLoop_ok_spec pf rows total start
        (total - (specPagesUpTo pf rows start 0).length) 0 (Nat.le_refl _)
    rw [Nat.mul_zero, Nat.add_zero, hbase] at hloop
    refine ⟨n, ?_, ?_, hstop⟩
    · simp only [fetch_all_pages, okOracle, h]
      exact hloop
    · intro m hm
      exact hmid m (Nat.zero_le m) hm

/-- Concrete page oracle for the C3 witness: at offset 0 a page reporting
total 5, further pages at offsets 2 and 4. -/
def c3WitnessPages : Nat → List Nat × Option Nat :=
  fun i =>
    if i = 0 then ([10, 11], some 5)
    else if i = 2 then ([12, 13], none)
    else if i = 4 then ([14], none)
    else ([], none)

theorem c3_pagination_protocol_witness :
    fetch_all_pages (okOracle c3WitnessPages) 2 2 =
      .ok (c3WitnessPages 2).1 ∧
    (∃ n, fetch_all_pages (okOracle c3WitnessPages) 2 0 =
        .ok (specPagesUpTo c3WitnessPages 2 0 n) ∧
      (∀ m, m < n →
        (specPagesUpTo c3WitnessPages 2 0 m).length < 5 ∧
        specPage c3WitnessPages 2 0 (m + 1) ≠ []) ∧
      (5 ≤ (specPagesUpTo c3WitnessPages 2 0 n).length ∨
        ((specPagesUpTo c3WitnessPages 2 0 n).length < 5 ∧
          specPage c3WitnessPages 2 0 (n + 1) = []))) :=
  ⟨(c3_pagination_protocol c3WitnessPages 2 2).1 rfl,
   (c3_pagination_protocol c3WitnessPages 2 0).2 5 rfl⟩

/-! ### C4: response validation -/

/-- Modelled from the spec: the claim's notion of a valid response — "a
JSON object with a success indicator, a result object containing
`results` (list of raw packages)". Used only to state the refutation. -/
def claimedGoodShape (d : JVal) : Prop :=
  ∃ fields rfields rv, d = .obj fields ∧
    (lookupField fields "success").isSome = true ∧
    lookupField fields "result" = some (.obj rfields) ∧
    lookupField rfields "results" = some (.arr rv)

/-- A response with `result.results` but no success indicator at all. -/
def c4NoSuccessResponse : JVal :=
  .obj [("result", .obj [("results", .arr [])])]

/-- C4 counterexample: the claim says validation errors exactly on the
responses that are not an object with a success indicator and a result
object containing a results list; but a response with no success
indicator at all is accepted, returning its results successfully. -/
theorem c4_counterexample :
    ckan_results_from_page c4NoSuccessResponse = .ok (.arr [], none) ∧
    ¬ claimedGoodShape c4NoSuccessResponse := by
  constructor
  · rfl
  · rintro ⟨fields, rfields, rv, hobj, hsucc, _, _⟩
    simp only [c4NoSuccessResponse] at hobj
    injection hobj with hf
    subst hf
    simp [lookupField] at hsucc

/-- C4 (amended): validation succeeds exactly on an object whose `result`
member is an object containing a `results` entry and whose success
indicator, when present, is truthy (absence counts as success), and then
returns the results value and the optional count unchanged; the malformed
shapes — a non-object response, a missing `result` member, a `result`
object without `results`, or an explicitly falsy success indicator —
raise the protocol error (`ValueError`). (A `result` member that is not
an object can instead raise a `TypeError` and never yields success.) -/
theorem c4_response_validation (d : JVal) :
    ((∃ out, ckan_results_from_page d = .ok out) ↔
      (∃ fields rfields rv, d = .obj fields ∧
        lookupField fields "result" = some (.obj rfields) ∧
        lookupField rfields "results" = some rv ∧
        truthy ((lookupField fields "success").getD (.bool true)) = true)) ∧
    (∀ fields rfields rv, d = .obj fields →
      lookupField fields "result" = some (.obj rfields) →
      lookupField rfields "results" = some rv →
      truthy ((lookupField fields "success").getD (.bool true)) = true →
      ckan_results_from_page d = .ok (rv, lookupField rfields "count")) ∧
    ((∀ fields, d ≠ .obj fields) →
      ckan_results_from_page d =
        .error (.valueError "Input is not a CKAN package_search response")) ∧
    (∀ fields, d = .obj fields → lookupField fields "result" = none →
      ckan_results_from_page d =
        .error (.valueError "Input is not a CKAN package_search response")) ∧
    (∀ fields rfields, d = .obj fields →
      lookupField fields "result" = some (.obj rfields) →
      lookupField rfields "results" = none →
      ckan_results_from_page d =
        .error (.valueError "Input is not a CKAN package_search response")) ∧
    (∀ fields result, d = .obj fields →
      lookupField fields "result" = some result →
      pyContains result "results" = .ok true →
      truthy ((lookupField fields "success").getD (.bool true)) = false →
      ckan_results_from_page d =
        .error (.valueError "CKAN API success=false")) := by
  refine ⟨⟨?_, ?_⟩, ?_, ?_, ?_, ?_, ?_⟩
  · rintro ⟨out, hout⟩
    cases d with
    | obj fields =>
      cases hres : lookupField fields "result" with
      | none => simp [ckan_results_from_page, hres] at hout
      | some result =>
        cases result with
        | null => simp [ckan_results_from_page, hres, pyContains] at hout
        | bool b => simp [ckan_results_from_page, hres, pyContains] at hout
        | num n => simp [ckan_results_from_page, hres, pyContains] at hout
        | str s =>
          simp only [ckan_results_from_page, hres, pyContains] at hout
          cases hb : strIn "results" s with
          | false => simp [hb] at hout
          | true =>
            rw [hb] at hout
            simp only [getItem] at hout
            split at hout
            · exact absurd hout (by simp)
            · exact absurd hout (by simp)
        | arr elems =>
          simp only [ckan_results_from_page, hres, pyContains] at hout
          cases hb : elems.any fun e =>
              match e with
              | .str s => s == "results"
              | _ => false with
          | false => rw [hb] at hout; simp at hout
          | true =>
            rw [hb] at hout
            simp only [getItem] at hout
            split at hout
            · exact absurd hout (by simp)
            · exact absurd hout (by simp)
        | obj rfields =>
          simp only [ckan_results_from_page, hres, pyContains] at hout
          cases hrv : lookupField rfields "results" with
          | none => rw [hrv] at hout; simp at hout
          | some rv =>
            rw [hrv] at hout
            by_cases htr :
                truthy ((lookupField fields "success").getD (.bool true)) =
                  true
            · exact ⟨fields, rfields, rv, rfl, hres, hrv, htr⟩
            · simp [htr] at hout
    | null => simp [ckan_results_from_page] at hout
    | bool b => simp [ckan_results_from_page] at hout
    | num n => simp [ckan_results_from_page] at hout
    | str s => simp [ckan_results_from_page] at hout
    | arr elems => simp [ckan_results_from_page] at hout
  · rintro ⟨fields, rfields, rv, rfl, h1, h2, h3⟩
    exact ⟨(rv, lookupField rfields "count"),
      by simp [ckan_results_from_page, h1, pyContains, h2, h3, getItem,
        pyGet]⟩
  · rintro fields rfields rv rfl h1 h2 h3
    simp [ckan_results_from_page, h1, pyContains, h2, h3, getItem, pyGet]
  · intro h
    cases d with
    | obj fields => exact absurd rfl (h fields)
    | null => simp [ckan_results_from_page]
    | bool b => simp [ckan_results_from_page]
    | num n => simp [ckan_results_from_page]
    | str s => simp [ckan_results_from_page]
    | arr elems => simp [ckan_results_from_page]
  · rintro fields rfl h1
    simp [ckan_results_from_page, h1]
  · rintro fields rfields rfl h1 h2
    simp [ckan_results_from_page, h1, pyContains, h2]
  · rintro fields result rfl h1 h2 h3
    simp [ckan_results_from_page, h1, h2, h3]

/-- A well-formed response used to witness the amended C4 theorem. -/
def c4GoodResponse : JVal :=
  .obj [("success", .bool true),
        ("result", .obj [("results", .arr [.null]), ("count", .num 7)])]

theorem c4_response_validation_witness :
    ckan_results_from_page c4GoodResponse = .ok (.arr [.null], some (.num 7)) := by
  have h := (c4_response_validation c4GoodResponse).2.1
    [("success", .bool true),
     ("result", .obj [("results", .arr [.null]), ("count", .num 7)])]
    [("results", .arr [.null]), ("count", .num 7)]
    (.arr [.null]) rfl rfl rfl rfl
  simpa [lookupField] using h

/-! ### C6, C10: URL index collection -/

theorem collect_fold_eq (world : String → Except String SitemapDoc)
    (children : List String) (acc : List String) :
    children.foldl
      (fun acc child =>
        match collect_urls_from_urlset world child with
        | .ok more => acc ++ more
        | .error _ => acc)
      acc =
    acc ++ children.flatMap (fun c =>
      match collect_urls_from_urlset world c with
      | .ok more => more
      | .error _ => []) := by
  induction children generalizing acc with
  | nil => simp
  | cons c cs ih =>
    simp only [List.foldl_cons, List.flatMap_cons]
    cases h : collect_urls_from_urlset world c with
    | ok more =>
      rw [ih]
      simp [List.append_assoc]
    | error e =>
      rw [ih]
      simp

theorem collect_urls_from_sitemap_char
    (world : String → Except String SitemapDoc) (url : String)
    (root : SitemapDoc) (h : world url = .ok root) :
    collect_urls_from_sitemap world url =
      .ok (if (locTexts root.urlLocs).isEmpty then
            (locTexts root.sitemapLocs).flatMap (fun c =>
              match collect_urls_from_urlset world c with
              | .ok more => more
              | .error _ => [])
          else locTexts root.urlLocs) := by
  simp only [collect_urls_from_sitemap, h]
  by_cases he : (locTexts root.urlLocs).isEmpty
  · rw [collect_fold_eq]
    simp [he]
  · simp [he]

/-- C6: for every root index document, the collector returns the root's
own leaf `loc` entries when any are present (no child is consulted); only
when there are none does it fetch each referenced child index and flatten
exactly that child's own leaf entries — expressed by the single
application of the fetch oracle per child, so entries of a grandchild
index are never fetched. -/
theorem c6_one_level_flattening
    (world : String → Except String SitemapDoc) (url : String)
    (root : SitemapDoc) (h : world url = .ok root) :
    collect_urls_from_sitemap world url =
      .ok (if (locTexts root.urlLocs).isEmpty then
            (locTexts root.sitemapLocs).flatMap (fun c =>
              match world c with
              | .ok child => locTexts child.urlLocs
              | .error _ => [])
          else locTexts root.urlLocs) := by
  rw [collect_urls_from_sitemap_char world url root h]
  congr 1
  by_cases he : (locTexts root.urlLocs).isEmpty
  · simp only [he, if_true]
    congr 1
    funext c
    cases hc : world c with
    | ok child => simp [collect_urls_from_urlset, hc]
    | error e => simp [collect_urls_from_urlset, hc]
  · simp [he]

/-- Three-level index world for the C6 witness: the root references two
children; child `c1` has a leaf and also references a grandchild index
`g`, whose leaf must not appear in the result. -/
def c6World : String → Except String SitemapDoc := fun u =>
  if u = "root" then .ok ⟨[], [some "c1", some "c2"]⟩
  else if u = "c1" then .ok ⟨[some "l1"], [some "g"]⟩
  else if u = "c2" then .ok ⟨[some "l2"], []⟩
  else if u = "g" then .ok ⟨[some "gl"], []⟩
  else .error "not found"

theorem c6_one_level_flattening_witness :
    collect_urls_from_sitemap c6World "root" = .ok ["l1", "l2"] := by
  have h := c6_one_level_flattening c6World "root"
    ⟨[], [some "c1", some "c2"]⟩ rfl
  rw [h]
  rfl

/-- C10: when the root is an index-of-indexes, a failing child index is
silently swallowed: the collection still succeeds, and the result is the
same as if that child had been an empty index — its URLs are simply
absent while the other children still contribute. -/
theorem c10_child_failure_swallowed
    (world : String → Except String SitemapDoc) (url : String)
    (root : SitemapDoc) (c : String) (e : String)
    (h : world url = .ok root) (hl : locTexts root.urlLocs = [])
    (hc : world c = .error e) (hne : url ≠ c) :
    (collect_urls_from_sitemap world url).isOk = true ∧
    collect_urls_from_sitemap world url =
      collect_urls_from_sitemap
        (fun u => if u = c then .ok (SitemapDoc.mk [] []) else world u)
        url := by
  have h2 : (fun u => if u = c then .ok (SitemapDoc.mk [] []) else world u)
      url = .ok root := by
    simp [hne, h]
  rw [collect_urls_from_sitemap_char world url root h,
    collect_urls_from_sitemap_char _ url root h2]
  refine ⟨rfl, ?_⟩
  congr 1
  rw [hl]
  simp only [List.isEmpty_nil, if_true]
  congr 1
  funext cc
  by_cases hcc : cc = c
  · subst hcc
    simp [collect_urls_from_urlset, hc, locTexts]
  · simp [collect_urls_from_urlset, hcc]

/-- World for the C10 witness: the root references a good child and a
child whose fetch fails. -/
def c10World : String → Except String SitemapDoc := fun u =>
  if u = "root" then .ok ⟨[], [some "good", some "bad"]⟩
  else if u = "good" then .ok ⟨[some "l1"], []⟩
  else .error "boom"

theorem c10_child_failure_swallowed_witness :
    (collect_urls_from_sitemap c10World "root").isOk = true ∧
    collect_urls_from_sitemap c10World "root" =
      collect_urls_from_sitemap
        (fun u => if u = "bad" then .ok (SitemapDoc.mk [] [])
          else c10World u)
        "root" :=
  c10_child_failure_swallowed c10World "root"
    ⟨[], [some "good", some "bad"]⟩ "bad" "boom" rfl rfl rfl
    (by decide)

/-! ### C7: keyword filtering -/

theorem strIn_iff (needle hay : String) :
    strIn needle hay = true ↔ needle.data <:+: hay.data := by
  constructor
  · intro h
    rw [strIn, List.any_eq_true] at h
    obtain ⟨i, _, hp⟩ := h
    rw [List.isPrefixOf_iff_prefix] at hp
    exact List.infix_iff_prefix_suffix.mpr
      ⟨hay.data.drop i, hp, List.drop_suffix i hay.data⟩
  · intro h
    obtain ⟨s, t, hst⟩ := h
    rw [strIn, List.any_eq_true]
    refine ⟨s.length, ?_, ?_⟩
    · rw [List.mem_range, ← hst]
      simp only [List.length_append]
      omega
    · rw [List.isPrefixOf_iff_prefix, ← hst, List.append_assoc,
        List.drop_left]
      exact ⟨t, rfl⟩

theorem foldl_filter_aux (p : String → Bool) (urls acc : List String) :
    urls.foldl (fun out u => if p u then out ++ [u] else out) acc =
      acc ++ urls.filter p := by
  induction urls generalizing acc with
  | nil => simp
  | cons u us ih =>
    simp only [List.foldl_cons, List.filter_cons]
    by_cases hp : p u
    · rw [if_pos hp, if_pos hp, ih]
      simp
    · rw [if_neg hp, if_neg hp, ih]

theorem filter_by_keywords_eq (urls keywords : List String) :
    filter_by_keywords urls keywords =
      urls.filter fun u =>
        (keywords.map lowerStr).any fun k =>
          strIn k (lowerStr (urlPath u)) := by
  rw [filter_by_keywords]
  exact foldl_filter_aux _ urls []

/-- C7: the keyword filter returns exactly the input URLs whose path
component (scheme, host and query ignored) contains some keyword
case-insensitively as a substring (an infix of the lower-cased path),
preserving input order (the result is a sublist of, indeed a filter of,
the input); the built-in default list is used when no keyword list is
supplied; and on the spec's example URLs the `api` path is retained while
`about-us` is excluded. -/
theorem c7_keyword_path_filter (urls keywords : List String) :
    filter_by_keywords urls keywords =
      (urls.filter fun u =>
        (keywords.map lowerStr).any fun k =>
          strIn k (lowerStr (urlPath u))) ∧
    (filter_by_keywords urls keywords).Sublist urls ∧
    (∀ u, u ∈ filter_by_keywords urls keywords ↔
      u ∈ urls ∧ ∃ k, k ∈ keywords ∧
        (lowerStr k).data <:+: ((lowerStr (urlPath u)).data)) ∧
    keywordsOrDefault none = DEFAULT_KEYWORDS ∧
    filter_by_keywords
      ["https://example.gov/open-data/api/records",
       "https://example.gov/about-us"] DEFAULT_KEYWORDS =
      ["https://example.gov/open-data/api/records"] := by
  have heq := filter_by_keywords_eq urls keywords
  refine ⟨heq, ?_, ?_, rfl, by rfl⟩
  · rw [heq]
    exact List.filter_sublist urls
  · intro u
    rw [heq, List.mem_filter]
    constructor
    · rintro ⟨hu, hp⟩
      rw [List.any_eq_true] at hp
      obtain ⟨k', hk', hs⟩ := hp
      rw [List.mem_map] at hk'
      obtain ⟨k, hk, rfl⟩ := hk'
      exact ⟨hu, k, hk, (strIn_iff _ _).mp hs⟩
    · rintro ⟨hu, k, hk, hinf⟩
      refine ⟨hu, ?_⟩
      rw [List.any_eq_true]
      exact ⟨lowerStr k, List.mem_map.mpr ⟨k, hk, rfl⟩,
        (strIn_iff _ _).mpr hinf⟩

/-! ### C8: year derivation precedence -/

/-- C8: the derived year is the first year pattern in the (cleaned)
title — which therefore wins over any resource timestamp — else the
first pattern in a non-empty temporal-coverage-from field, else the
maximum year collected from the resources' last-modified / created /
metadata-modified timestamps, else the empty string. -/
theorem c8_year_precedence (title temporal_from : String)
    (resources : List Resource) :
    (∀ y, findYear (clean title) = some y →
      guess_year title temporal_from resources = y) ∧
    (findYear (clean title) = none → temporal_from ≠ "" →
      ∀ y, findYear temporal_from = some y →
        guess_year title temporal_from resources = y) ∧
    (findYear (clean title) = none →
      (temporal_from = "" ∨ findYear temporal_from = none) →
      ((resourceYears resources = [] →
        guess_year title temporal_from resources = "") ∧
      (∀ m, (resourceYears resources).max? = some m →
        guess_year title temporal_from resources = toString m ∧
        m ∈ resourceYears resources ∧
        ∀ y ∈ resourceYears resources, y ≤ m))) := by
  refine ⟨?_, ?_, ?_⟩
  · intro y h
    simp [guess_year, h]
  · intro h1 h2 y h3
    simp [guess_year, h1, h2, h3]
  · intro h1 h2
    have htf : (if temporal_from ≠ "" then findYear temporal_from
        else none) = none := by
      rcases h2 with h | h
      · simp [h]
      · simp [h]
    constructor
    · intro hr
      simp [guess_year, h1, htf, hr]
    · intro m hm
      refine ⟨by simp [guess_year, h1, htf, hm], ?_, ?_⟩
      · exact List.max?_mem (fun a b => max_choice a b) hm
      · exact (List.max?_le_iff (fun a b c => max_le_iff) hm).mp
          (le_refl m)

theorem c8_year_precedence_witness :
    guess_year "2023 Annual Report" ""
      [{ last_modified := "2024-05-01" }] = "2023" :=
  (c8_year_precedence "2023 Annual Report" ""
    [{ last_modified := "2024-05-01" }]).1 "2023" rfl

/-! ### C9: data_types is a sorted, duplicate-free union of tokens -/

theorem mem_insertSet (x y : String) (s : List String) :
    x ∈ insertSet y s ↔ x ∈ s ∨ x = y := by
  unfold insertSet
  by_cases h : y ∈ s
  · rw [if_pos h]
    constructor
    · exact Or.inl
    · rintro (hx | rfl)
      · exact hx
      · exact h
  · rw [if_neg h]
    simp

theorem nodup_insertSet (y : String) (s : List String) (h : s.Nodup) :
    (insertSet y s).Nodup := by
  unfold insertSet
  by_cases hy : y ∈ s
  · simpa [hy]
  · rw [if_neg hy]
    simp [List.nodup_append, h, hy]

theorem mem_foldl_insertSet (l acc : List String) (x : String) :
    x ∈ l.foldl (fun a y => insertSet y a) acc ↔ x ∈ acc ∨ x ∈ l := by
  induction l generalizing acc with
  | nil => simp
  | cons y ys ih =>
    rw [List.foldl_cons, ih, mem_insertSet]
    simp only [List.mem_cons]
    tauto

theorem mem_dedupSet (l : List String) (x : String) :
    x ∈ dedupSet l ↔ x ∈ l := by
  unfold dedupSet
  rw [mem_foldl_insertSet]
  simp

theorem nodup_foldl_insertSet (l acc : List String) (h : acc.Nodup) :
    (l.foldl (fun a y => insertSet y a) acc).Nodup := by
  induction l generalizing acc with
  | nil => simpa
  | cons y ys ih => exact ih _ (nodup_insertSet y acc h)

theorem nodup_dedupSet (l : List String) : (dedupSet l).Nodup :=
  nodup_foldl_insertSet l [] (by simp)

theorem lexLe_total (a b : List Char) :
    lexLe a b = true ∨ lexLe b a = true := by
  induction a generalizing b with
  | nil => left; rfl
  | cons x xs ih =>
    cases b with
    | nil => right; rfl
    | cons y ys =>
      by_cases hxy : x = y
      · subst hxy
        rcases ih ys with h | h
        · left; simp [lexLe, h]
        · right; simp [lexLe, h]
      · rcases Nat.lt_or_ge x.toNat y.toNat with h | h
        · left; simp [lexLe, hxy, h]
        · have hne : y.toNat ≠ x.toNat := fun hn =>
            hxy (Char.eq_of_val_eq (UInt32.toNat.inj hn)).symm
          right
          simp only [lexLe, if_neg (Ne.symm hxy)]
          simp
          omega

theorem lexLe_trans (a b c : List Char) (h1 : lexLe a b = true)
    (h2 : lexLe b c = true) : lexLe a c = true := by
  induction a generalizing b c with
  | nil => rfl
  | cons x xs ih =>
    cases b with
    | nil => simp [lexLe] at h1
    | cons y ys =>
      cases c with
      | nil => simp [lexLe] at h2
      | cons z zs =>
        by_cases hxy : x = y
        · subst hxy
          simp only [lexLe, if_pos rfl] at h1
          by_cases hyz : x = z
          · subst hyz
            simp only [lexLe, if_pos rfl] at h2 ⊢
            exact ih ys zs h1 h2
          · simp only [lexLe, if_neg hyz] at h2 ⊢
            exact h2
        · simp only [lexLe, if_neg hxy] at h1
          rw [decide_eq_true_eq] at h1
          by_cases hyz : y = z
          · subst hyz
            simp only [lexLe, if_neg hxy]
            simp
            omega
          · simp only [lexLe, if_neg hyz] at h2
            rw [decide_eq_true_eq] at h2
            have hxz : x.toNat < z.toNat := Nat.lt_trans h1 h2
            have hxzne : x ≠ z := fun he =>
              absurd hxz (he ▸ Nat.lt_irrefl _)
            simp only [lexLe, if_neg hxzne]
            simp
            omega

instance : IsTotal String fun a b => strLeB a b = true :=
  ⟨fun a b => lexLe_total a.data b.data⟩

instance : IsTrans String fun a b => strLeB a b = true :=
  ⟨fun a b c => lexLe_trans a.data b.data c.data⟩

/-- The tokens one resource contributes to `collect_data_types`: its
cleaned lower-cased `format` when non-empty, and the extension parsed
from `url or download_url` when present. -/
def resourceTokens (r : Resource) : List String :=
  (if lowerStr (clean r.format) = "" then []
   else [lowerStr (clean r.format)]) ++
  (let u := if r.url ≠ "" then r.url else r.download_url
   if u = "" then []
   else
     match ext_from_url u with
     | some e => [e]
     | none => [])

theorem mem_resourceTypeInsert (acc : List String) (r : Resource)
    (x : String) :
    x ∈ resourceTypeInsert acc r ↔ x ∈ acc ∨ x ∈ resourceTokens r := by
  simp only [resourceTypeInsert, resourceTokens]
  generalize (if r.url ≠ "" then r.url else r.download_url) = u
  by_cases hf : lowerStr (clean r.format) = ""
  · by_cases hu : u = ""
    · simp [hf, hu]
    · cases he : ext_from_url u with
      | some e => simp [hf, hu, he, mem_insertSet]
      | none => simp [hf, hu, he]
  · by_cases hu : u = ""
    · simp [hf, hu, mem_insertSet]
    · cases he : ext_from_url u with
      | some e =>
        simp [hf, hu, he, mem_insertSet]
        tauto
      | none => simp [hf, hu, he, mem_insertSet]

theorem mem_foldl_resourceTypeInsert (resources : List Resource)
    (acc : List String) (x : String) :
    x ∈ resources.foldl resourceTypeInsert acc ↔
      x ∈ acc ∨ ∃ r, r ∈ resources ∧ x ∈ resourceTokens r := by
  induction resources generalizing acc with
  | nil => simp
  | cons r rs ih =>
    rw [List.foldl_cons, ih, mem_resourceTypeInsert]
    constructor
    · rintro ((hx | hx) | ⟨r', hr', hx⟩)
      · exact Or.inl hx
      · exact Or.inr ⟨r, List.mem_cons_self r rs, hx⟩
      · exact Or.inr ⟨r', List.mem_cons_of_mem r hr', hx⟩
    · rintro (hx | ⟨r', hr', hx⟩)
      · exact Or.inl (Or.inl hx)
      · rcases List.mem_cons.mp hr' with rfl | hr'
        · exact Or.inl (Or.inr hx)
        · exact Or.inr ⟨r', hr', hx⟩

theorem ext_from_url_ne_empty (u : String) (e : String)
    (h : ext_from_url u = some e) : e ≠ "" := by
  simp only [ext_from_url] at h
  cases hd : afterLastDot (lowerStr (urlPath u)).data with
  | none => rw [hd] at h; simp at h
  | some chars =>
    rw [hd] at h
    dsimp only at h
    split at h
    · rename_i hc
      injection h with h
      subst h
      intro he
      have hdata : chars = [] := by
        have := congrArg String.data he
        simpa using this
      subst hdata
      simp [String.length] at hc
    · simp at h

theorem resourceTokens_ne_empty (r : Resource) (t : String)
    (h : t ∈ resourceTokens r) : t ≠ "" := by
  simp only [resourceTokens] at h
  rw [List.mem_append] at h
  rcases h with h | h
  · by_cases hf : lowerStr (clean r.format) = ""
    · simp [hf] at h
    · simp only [if_neg hf, List.mem_singleton] at h
      subst h
      exact hf
  · revert h
    generalize hgu : (if r.url ≠ "" then r.url else r.download_url) = u
    intro h
    by_cases hu : u = ""
    · simp [hu] at h
    · cases he : ext_from_url u with
      | some e =>
        simp only [if_neg hu, he, List.mem_singleton] at h
        subst h
        exact ext_from_url_ne_empty _ _ he
      | none => simp [if_neg hu, he] at h

theorem mem_sortStrings (l : List String) (x : String) :
    x ∈ sortStrings l ↔ x ∈ l :=
  (List.perm_insertionSort (fun a b => strLeB a b = true) l).mem_iff

/-- C9: `collect_data_types` is the comma-join of a list of tokens that is
strictly sorted in code-point order (hence duplicate-free), and the
tokens are exactly the alias-normalized lower-cased union, over the
resources, of each declared format and each extension parsed from the
resource's URL / download URL. -/
theorem c9_data_types_sorted_union (resources : List Resource) :
    ∃ l : List String,
      collect_data_types resources = ", ".intercalate l ∧
      List.Pairwise (fun a b => strLeB a b = true ∧ a ≠ b) l ∧
      ∀ t, t ∈ l ↔ ∃ r, r ∈ resources ∧ ∃ t₀, t₀ ∈ resourceTokens r ∧
        t = aliasNorm (lowerStr t₀) := by
  refine ⟨sortStrings (dedupSet
    ((dedupSet (((resources.foldl resourceTypeInsert []).filter
      fun t => t ≠ "").map lowerStr)).map aliasNorm)), rfl, ?_, ?_⟩
  · have hnodup : (dedupSet
        ((dedupSet (((resources.foldl resourceTypeInsert []).filter
          fun t => t ≠ "").map lowerStr)).map aliasNorm)).Nodup :=
      nodup_dedupSet _
    have hperm := List.perm_insertionSort
      (fun a b => strLeB a b = true)
      (dedupSet
        ((dedupSet (((resources.foldl resourceTypeInsert []).filter
          fun t => t ≠ "").map lowerStr)).map aliasNorm))
    have hsorted := List.sorted_insertionSort
      (fun a b => strLeB a b = true)
      (dedupSet
        ((dedupSet (((resources.foldl resourceTypeInsert []).filter
          fun t => t ≠ "").map lowerStr)).map aliasNorm))
    exact List.Pairwise.and hsorted (hperm.symm.nodup hnodup)
  · intro t
    rw [mem_sortStrings]
    rw [mem_dedupSet, List.mem_map]
    constructor
    · rintro ⟨t₀, ht₀, rfl⟩
      rw [mem_dedupSet, List.mem_map] at ht₀
      obtain ⟨t₁, ht₁, rfl⟩ := ht₀
      rw [List.mem_filter] at ht₁
      obtain ⟨ht₁, _⟩ := ht₁
      rw [mem_foldl_resourceTypeInsert] at ht₁
      rcases ht₁ with h | ⟨r, hr, hx⟩
      · simp at h
      · exact ⟨r, hr, t₁, hx, rfl⟩
    · rintro ⟨r, hr, t₀, ht₀, rfl⟩
      refine ⟨lowerStr t₀, ?_, rfl⟩
      rw [mem_dedupSet, List.mem_map]
      refine ⟨t₀, ?_, rfl⟩
      rw [List.mem_filter]
      constructor
      · rw [mem_foldl_resourceTypeInsert]
        exact Or.inr ⟨r, hr, ht₀⟩
      · simpa using resourceTokens_ne_empty r t₀ ht₀

end DataTada
